import Mathlib

/-
Verification of the SEO manifest tools of this repository:
`tools/build_seo_manifest.py` (HTML extraction and link classification) and
`tools/validate_seo_manifest.py` (NDJSON stream validator).

Strings are modelled as `List Char`.  Each Python regular expression is
translated into an explicit scanning function with Python `re`'s
leftmost-match, greedy/lazy backtracking semantics.  Fuel arguments equal to
the input length make every scanner structurally recursive and hence
executable by `decide`.
-/

/-- Python's Unicode whitespace class (`\s` in `re` on `str`, and the
default `str.strip()` set), covering the code points this data can hold. -/
def isPySpace (c : Char) : Bool :=
  c = ' ' || c = '\t' || c = '\n' || c = '\r' ||
  c = Char.ofNat 11 || c = Char.ofNat 12 ||
  (28 ≤ c.toNat && c.toNat ≤ 31) || c = Char.ofNat 133 || c = Char.ofNat 160 ||
  c = Char.ofNat 5760 || (8192 ≤ c.toNat && c.toNat ≤ 8202) ||
  c = Char.ofNat 8232 || c = Char.ofNat 8233 || c = Char.ofNat 8239 ||
  c = Char.ofNat 8287 || c = Char.ofNat 12288

/-- Python `str.strip()`: trim leading and trailing whitespace. -/
def pyStrip (l : List Char) : List Char :=
  ((l.dropWhile isPySpace).reverse.dropWhile isPySpace).reverse

/-- Python `str.lower()` on the ASCII range (`re.IGNORECASE` matching). -/
def toLowerL (l : List Char) : List Char := l.map Char.toLower

/-- Case-insensitive prefix test; `pat` is given already lower-cased. -/
def ciHasPre : List Char → List Char → Bool
  | [], _ => true
  | _ :: _, [] => false
  | p :: ps, c :: cs => p == c.toLower && ciHasPre ps cs

/-- Index of the first case-insensitive occurrence of `pat` (the target of a
lazy `[\s\S]*?` followed by the literal `pat`). -/
def ciFindSub (pat : List Char) : List Char → Option Nat
  | [] => if ciHasPre pat [] then some 0 else none
  | c :: cs => if ciHasPre pat (c :: cs) then some 0 else (ciFindSub pat cs).map (· + 1)

/-- One pass of `re.sub(r'<tag[\s\S]*?</tag>', '', html, flags=IGNORECASE)`
(`strip_tags` lines 26–27): scanning left to right, a position that starts
with the open literal and has a later close literal matches up to the first
close and is deleted; otherwise the character is kept.  Fuel ≥ length. -/
def stripBlocksAux (openT closeT : List Char) : Nat → List Char → List Char
  | 0, l => l
  | _ + 1, [] => []
  | fuel + 1, c :: cs =>
    if ciHasPre openT (c :: cs) then
      match ciFindSub closeT ((c :: cs).drop openT.length) with
      | some j =>
          stripBlocksAux openT closeT fuel (((c :: cs).drop openT.length).drop (j + closeT.length))
      | none => c :: stripBlocksAux openT closeT fuel cs
    else c :: stripBlocksAux openT closeT fuel cs

/-- `re.sub(r'<[^>]+>', ' ', html)` (`strip_tags` line 29): a `<` followed by
at least one non-`>` character and a `>` becomes a single space. -/
def stripAngleAux : Nat → List Char → List Char
  | 0, l => l
  | _ + 1, [] => []
  | fuel + 1, c :: cs =>
    if c = '<' then
      match cs.findIdx? (fun d => d = '>') with
      | some j =>
          if 1 ≤ j then ' ' :: stripAngleAux fuel (cs.drop (j + 1))
          else c :: stripAngleAux fuel cs
      | none => c :: stripAngleAux fuel cs
    else c :: stripAngleAux fuel cs

/-- `re.sub(r'\s+', ' ', text)` (`strip_tags` line 31): each maximal
whitespace run becomes one space. -/
def collapseWsAux : Nat → List Char → List Char
  | 0, l => l
  | _ + 1, [] => []
  | fuel + 1, c :: cs =>
    if isPySpace c then ' ' :: collapseWsAux fuel (cs.dropWhile isPySpace)
    else c :: collapseWsAux fuel cs

/-- The entity name (after a `&`) and its decoded character and length. -/
def entStep : List Char → Option (Char × Nat)
  | 'l' :: 't' :: ';' :: _ => some ('<', 3)
  | 'g' :: 't' :: ';' :: _ => some ('>', 3)
  | 'a' :: 'm' :: 'p' :: ';' :: _ => some ('&', 4)
  | 'q' :: 'u' :: 'o' :: 't' :: ';' :: _ => some ('"', 5)
  | 'n' :: 'b' :: 's' :: 'p' :: ';' :: _ => some (Char.ofNat 160, 5)
  | _ => none

/-- Modelled from the spec: "HTML entities decoded" — the decoder is the
stdlib collaborator `html.unescape`, which is not part of this repository's
sources; it is modelled on the named entities exercised here (`&lt;`,
`&gt;`, `&amp;`, `&quot;`, `&nbsp;`), leaving all other text unchanged. -/
def unescapeAux : Nat → List Char → List Char
  | 0, l => l
  | _ + 1, [] => []
  | fuel + 1, c :: cs =>
    if c = '&' then
      match entStep cs with
      | some (d, n) => d :: unescapeAux fuel (cs.drop n)
      | none => c :: unescapeAux fuel cs
    else c :: unescapeAux fuel cs

def unescape (l : List Char) : List Char := unescapeAux l.length l

def scriptOpenT : List Char := ['<', 's', 'c', 'r', 'i', 'p', 't']

def scriptCloseT : List Char := ['<', '/', 's', 'c', 'r', 'i', 'p', 't', '>']

def styleOpenT : List Char := ['<', 's', 't', 'y', 'l', 'e']

def styleCloseT : List Char := ['<', '/', 's', 't', 'y', 'l', 'e', '>']

def stripScripts (l : List Char) : List Char := stripBlocksAux scriptOpenT scriptCloseT l.length l

def stripStyles (l : List Char) : List Char := stripBlocksAux styleOpenT styleCloseT l.length l

def stripAngle (l : List Char) : List Char := stripAngleAux l.length l

def collapseWs (l : List Char) : List Char := collapseWsAux l.length l

/-- `strip_tags` (tools/build_seo_manifest.py lines 24–32): remove script and
style blocks, replace the remaining tags by spaces, collapse whitespace,
strip the ends, and decode HTML entities, in exactly this order. -/
def strip_tags (h : List Char) : List Char :=
  unescape (pyStrip (collapseWs (stripAngle (stripStyles (stripScripts h)))))

/-- Consume a case-insensitive literal (`pat` given lower-cased), returning
the rest of the input. -/
def matchLitCI : List Char → List Char → Option (List Char)
  | [], l => some l
  | _ :: _, [] => none
  | p :: ps, c :: cs => if p == c.toLower then matchLitCI ps cs else none

/-- Consume one expected character. -/
def expectChar (d : Char) : List Char → Option (List Char)
  | [] => none
  | c :: cs => if c = d then some cs else none

/-- `\s*` before a non-whitespace literal: the maximal run is the only
viable backtracking choice, so the star is deterministic. -/
def dropWs (l : List Char) : List Char := l.dropWhile isPySpace

/-- Greedy star then continuation, Python backtracking order: the longest
candidate (`drop k`) is tried first. -/
def tryFrom (cont : List Char → Option α) (l : List Char) : Nat → Option α
  | 0 => cont l
  | k + 1 =>
    match cont (l.drop (k + 1)) with
    | some v => some v
    | none => tryFrom cont l k

/-- Greedy `[^>]*` followed by the continuation. -/
def starNoGt (cont : List Char → Option α) (l : List Char) : Option α :=
  tryFrom cont l (l.takeWhile (fun c => c != '>')).length

/-- `[^>]*>`: only the maximal run can be followed by `>`, so this is
deterministic: skip to the first `>` and past it. -/
def skipToGt (l : List Char) : Option (List Char) :=
  expectChar '>' (l.drop (l.takeWhile (fun c => c != '>')).length)

/-- Optional `"?`, greedy: the branch with the quote is tried first. -/
def optQuote (cont : List Char → Option α) : List Char → Option α
  | [] => cont []
  | c :: cs =>
    if c = '"' then
      match cont cs with
      | some v => some v
      | none => cont (c :: cs)
    else cont (c :: cs)

/-- `([^"]*)"` after the opening quote: capture up to the closing quote. -/
def quotedCapStar (l : List Char) : Option (List Char) :=
  let v := l.takeWhile (fun c => c != '"')
  (expectChar '"' (l.drop v.length)).map (fun _ => v)

/-- `([^"]+)"` after the opening quote: as above but non-empty. -/
def quotedCapPlus (l : List Char) : Option (List Char) :=
  let v := l.takeWhile (fun c => c != '"')
  if v.isEmpty then none
  else (expectChar '"' (l.drop v.length)).map (fun _ => v)

/-- `re.search`: try the anchored matcher at each position from the left;
the leftmost match wins. -/
def reSearch (m : List Char → Option α) : List Char → Option α
  | [] => m []
  | c :: cs =>
    match m (c :: cs) with
    | some v => some v
    | none => reSearch m cs

/-- Anchored `<meta[^>]*name\s*=\s*"?KEY"?[^>]*content\s*=\s*"([^"]*)"`
(`extract_metas` line 42), KEY lower-cased; returns the content capture. -/
def metaNameMatcherAt (key : List Char) (l : List Char) : Option (List Char) :=
  (matchLitCI (("<meta").data) l).bind (fun l1 =>
    starNoGt (fun l2 =>
      (matchLitCI (("name").data) l2).bind (fun l3 =>
        (expectChar '=' (dropWs l3)).bind (fun l4 =>
          optQuote (fun l5 =>
            (matchLitCI key l5).bind (fun l6 =>
              optQuote (fun l7 =>
                starNoGt (fun l8 =>
                  (matchLitCI (("content").data) l8).bind (fun l9 =>
                    (expectChar '=' (dropWs l9)).bind (fun l10 =>
                      (expectChar '"' (dropWs l10)).bind quotedCapStar)))
                  l7)
                l6))
            (dropWs l4))))
      l1)

/-- Anchored `<meta[^>]*charset\s*=\s*"?([^\s"/>]+)"?` (`extract_metas`
line 38); the trailing optional quote consumes nothing of the capture. -/
def charsetMatcherAt (l : List Char) : Option (List Char) :=
  (matchLitCI (("<meta").data) l).bind (fun l1 =>
    starNoGt (fun l2 =>
      (matchLitCI (("charset").data) l2).bind (fun l3 =>
        (expectChar '=' (dropWs l3)).bind (fun l4 =>
          optQuote (fun l5 =>
            let v := l5.takeWhile (fun c => !(isPySpace c) && c != '"' && c != '/' && c != '>')
            if v.isEmpty then none else some v)
            (dropWs l4))))
      l1)

/-- Anchored `<link[^>]*rel\s*=\s*"?canonical"?[^>]*href\s*=\s*"([^"]+)"`
(`extract_metas` line 47). -/
def canonicalMatcherAt (l : List Char) : Option (List Char) :=
  (matchLitCI (("<link").data) l).bind (fun l1 =>
    starNoGt (fun l2 =>
      (matchLitCI (("rel").data) l2).bind (fun l3 =>
        (expectChar '=' (dropWs l3)).bind (fun l4 =>
          optQuote (fun l5 =>
            (matchLitCI (("canonical").data) l5).bind (fun l6 =>
              optQuote (fun l7 =>
                starNoGt (fun l8 =>
                  (matchLitCI (("href").data) l8).bind (fun l9 =>
                    (expectChar '=' (dropWs l9)).bind (fun l10 =>
                      (expectChar '"' (dropWs l10)).bind quotedCapPlus)))
                  l7)
                l6))
            (dropWs l4))))
      l1)

/-- The recognized meta keys. -/
inductive MetaKey where
  | charset
  | description
  | keywords
  | robots
  | canonical
deriving DecidableEq

def metaMatcherAt : MetaKey → List Char → Option (List Char)
  | .charset => charsetMatcherAt
  | .description => metaNameMatcherAt (("description").data)
  | .keywords => metaNameMatcherAt (("keywords").data)
  | .robots => metaNameMatcherAt (("robots").data)
  | .canonical => canonicalMatcherAt

/-- Post-processing of each capture: `m.group(1).lower()` for charset,
`m.group(1).strip()` for the others. -/
def metaPost : MetaKey → List Char → List Char
  | .charset => toLowerL
  | _ => pyStrip

/-- `extract_metas` (tools/build_seo_manifest.py lines 35–50): one
`re.search` per key; an absent match leaves the key out of the mapping. -/
def extract_metas (html : List Char) (k : MetaKey) : Option (List Char) :=
  (reSearch (metaMatcherAt k) html).map (metaPost k)

/-- One extracted link (`extract_links` line 76). -/
structure LinkRecord where
  href : List Char
  anchor : List Char
  rel : List Char
  target : List Char
deriving DecidableEq

/-- One extracted image (`extract_images` lines 88–94). -/
structure ImageRecord where
  src : List Char
  alt : List Char
  title : List Char
  width : List Char
  height : List Char
deriving DecidableEq

/-- `([^"]+)"`: non-empty capture plus the rest after the closing quote. -/
def quotedCapPlusR (l : List Char) : Option (List Char × List Char) :=
  let v := l.takeWhile (fun c => c != '"')
  if v.isEmpty then none
  else (expectChar '"' (l.drop v.length)).map (fun r => (v, r))

/-- The part of the anchor pattern after `<a[^>]*`:
`href\s*=\s*"([^"]+)"[^>]*>([\s\S]*?)</a>`. -/
def linkTail (l2 : List Char) : Option (List Char × List Char × List Char) :=
  (matchLitCI (("href").data) l2).bind (fun l3 =>
    (expectChar '=' (dropWs l3)).bind (fun l4 =>
      (expectChar '"' (dropWs l4)).bind (fun l5 =>
        (quotedCapPlusR l5).bind (fun gv =>
          (skipToGt gv.2).bind (fun l7 =>
            (ciFindSub (("</a>").data) l7).map (fun j =>
              (gv.1, l7.take j, l7.drop (j + 4))))))))

/-- Anchored `<a[^>]*href\s*=\s*"([^"]+)"[^>]*>([\s\S]*?)</a>`
(`extract_links` line 68): (href capture, body capture, rest after match). -/
def matchLinkAt (l : List Char) : Option (List Char × List Char × List Char) :=
  (matchLitCI (("<a").data) l).bind (starNoGt linkTail)

/-- Anchored `rel\s*=\s*"([^"]+)"` (line 70), searched in the whole match. -/
def relMatcherAt (l : List Char) : Option (List Char) :=
  (matchLitCI (("rel").data) l).bind (fun l1 =>
    (expectChar '=' (dropWs l1)).bind (fun l2 =>
      (expectChar '"' (dropWs l2)).bind quotedCapPlus))

/-- Anchored `target\s*=\s*"([^"]+)"` (line 72). -/
def targetMatcherAt (l : List Char) : Option (List Char) :=
  (matchLitCI (("target").data) l).bind (fun l1 =>
    (expectChar '=' (dropWs l1)).bind (fun l2 =>
      (expectChar '"' (dropWs l2)).bind quotedCapPlus))

/-- The record built for one anchor match (lines 69–76): `href` is the
stripped first capture, `anchor` the tag-stripped body, `rel`/`target` the
first `attr="..."` occurrence searched in the whole matched text `g0`
(`m.group(0)`), empty when absent. -/
def mkLink (g0 g1 g2 : List Char) : LinkRecord :=
  { href := pyStrip g1
    anchor := strip_tags g2
    rel := (reSearch relMatcherAt g0).getD []
    target := (reSearch targetMatcherAt g0).getD [] }

/-- The `re.finditer` loop of `extract_links` (lines 66–77): leftmost
matches, scanning resumes after each match.  Fuel ≥ length. -/
def extractLinksAux : Nat → List Char → List LinkRecord
  | 0, _ => []
  | _ + 1, [] => []
  | fuel + 1, c :: cs =>
    match matchLinkAt (c :: cs) with
    | some (g1, g2, rest) =>
        mkLink ((c :: cs).take ((c :: cs).length - rest.length)) g1 g2 ::
          extractLinksAux fuel rest
    | none => extractLinksAux fuel cs

def extract_links (html : List Char) : List LinkRecord := extractLinksAux html.length html

/-- Anchored `attr\s*=\s*"([^"]*)"` for `get_attr` (line 86). -/
def attrMatcherAt (attr : List Char) (l : List Char) : Option (List Char) :=
  (matchLitCI attr l).bind (fun l1 =>
    (expectChar '=' (dropWs l1)).bind (fun l2 =>
      (expectChar '"' (dropWs l2)).bind quotedCapStar))

/-- `get_attr` (lines 85–87): first `attr="..."` in the tag text, stripped;
empty when the attribute is absent. -/
def getAttr (attr : List Char) (tag : List Char) : List Char :=
  ((reSearch (attrMatcherAt attr) tag).map pyStrip).getD []

/-- The `re.finditer` loop of `extract_images` (lines 80–94) over
`<img[^>]*>`. -/
def extractImagesAux : Nat → List Char → List ImageRecord
  | 0, _ => []
  | _ + 1, [] => []
  | fuel + 1, c :: cs =>
    match (matchLitCI (("<img").data) (c :: cs)).bind skipToGt with
    | some rest =>
        let tag := (c :: cs).take ((c :: cs).length - rest.length)
        { src := getAttr (("src").data) tag
          alt := getAttr (("alt").data) tag
          title := getAttr (("title").data) tag
          width := getAttr (("width").data) tag
          height := getAttr (("height").data) tag } :: extractImagesAux fuel rest
    | none => extractImagesAux fuel cs

def extract_images (html : List Char) : List ImageRecord := extractImagesAux html.length html

/-- Anchored `<hN[^>]*>([\s\S]*?)</hN>` (body capture, rest). -/
def headMatcherAt (lvl : Nat) (l : List Char) : Option (List Char × List Char) :=
  (matchLitCI ['<', 'h', Char.ofNat (48 + lvl)] l).bind (fun l1 =>
    (skipToGt l1).bind (fun l2 =>
      (ciFindSub ['<', '/', 'h', Char.ofNat (48 + lvl), '>'] l2).map (fun j =>
        (l2.take j, l2.drop (j + 5)))))

/-- `re.findall` for one heading level: bodies in document order. -/
def hBodiesAux (lvl : Nat) : Nat → List Char → List (List Char)
  | 0, _ => []
  | _ + 1, [] => []
  | fuel + 1, c :: cs =>
    match headMatcherAt lvl (c :: cs) with
    | some (body, rest) => body :: hBodiesAux lvl fuel rest
    | none => hBodiesAux lvl fuel cs

def hBodies (lvl : Nat) (html : List Char) : List (List Char) :=
  hBodiesAux lvl html.length html

/-- The comprehension of `extract_headings` line 59:
`[strip_tags(m).strip() for m in matches if strip_tags(m).strip()]`. -/
def headingItems (lvl : Nat) (html : List Char) : List (List Char) :=
  ((hBodies lvl html).map (fun b => pyStrip (strip_tags b))).filter (fun t => !t.isEmpty)

/-- `extract_headings` (lines 53–63): level (1–6) to its non-empty items;
levels with no non-empty item are left out of the mapping. -/
def extract_headings (html : List Char) (lvl : Nat) : Option (List (List Char)) :=
  if 1 ≤ lvl ∧ lvl ≤ 6 then
    if (headingItems lvl html).isEmpty then none else some (headingItems lvl html)
  else none

/-- Python `str.startswith` (also with a tuple: a disjunction of these). -/
def startsW (p l : List Char) : Bool := p.isPrefixOf l

/-- Python `in` on strings: substring containment. -/
def infixOfL (pat : List Char) : List Char → Bool
  | [] => pat.isEmpty
  | c :: cs => pat.isPrefixOf (c :: cs) || infixOfL pat cs

/-- `re.match(r'^[a-zA-Z]+:', href)` (line 122): one or more ASCII letters
then a colon, anchored at the start; the greedy plus is deterministic. -/
def hasSchemeColon (l : List Char) : Bool :=
  let run := l.takeWhile Char.isAlpha
  !run.isEmpty && startsW [':'] (l.drop run.length)

/-- The link classifier of `make_page_object` (lines 112–126); `true` means
internal.  The href is re-stripped (line 113) and lower-cased (line 114). -/
def classifyLink (siteDomain : List Char) (link : LinkRecord) : Bool :=
  let href := pyStrip link.href
  let lower := toLowerL href
  if href.isEmpty || startsW (("mailto:").data) lower || startsW (("tel:").data) lower
      || startsW (("javascript:").data) lower then
    false
  else if startsW (("http://").data) lower || startsW (("https://").data) lower
      || startsW (("//").data) lower then
    infixOfL siteDomain lower
  else if startsW (("#").data) href || startsW (("/").data) href
      || startsW (("./").data) href || startsW (("../").data) href
      || !hasSchemeColon href then
    true
  else
    false

/-- Verdict of the first matching rule in a rule list. -/
def firstRule : List ((List Char → Bool) × (List Char → Bool)) → List Char → Bool
  | [], _ => false
  | (cond, verdict) :: rest, href =>
    if cond href then verdict href else firstRule rest href

/-- The classification rules exactly as the claim states them, in claim
order ("first matching rule decides, case-insensitive on the href"): rule 3
tests the href directly since `#`, `/`, `.` and the `[a-zA-Z]+:` class are
caseless. -/
def classifyRules (siteDomain : List Char) :
    List ((List Char → Bool) × (List Char → Bool)) :=
  [(fun h => h.isEmpty || startsW (("mailto:").data) (toLowerL h)
      || startsW (("tel:").data) (toLowerL h)
      || startsW (("javascript:").data) (toLowerL h),
    fun _ => false),
   (fun h => startsW (("http://").data) (toLowerL h)
      || startsW (("https://").data) (toLowerL h)
      || startsW (("//").data) (toLowerL h),
    fun h => infixOfL siteDomain (toLowerL h)),
   (fun h => startsW (("#").data) h || startsW (("/").data) h
      || startsW (("./").data) h || startsW (("../").data) h
      || !hasSchemeColon h,
    fun _ => true),
   (fun _ => true, fun _ => false)]

/-- The claim's rule-precedence classifier, applied to a link's href. -/
def classifySpec (siteDomain href : List Char) : Bool :=
  firstRule (classifyRules siteDomain) href

/-- The classification loop (lines 112–126): each link is appended to
exactly one of the two containers, in stream order. -/
def splitLinks (siteDomain : List Char) : List LinkRecord → List LinkRecord × List LinkRecord
  | [] => ([], [])
  | l :: rest =>
    let p := splitLinks siteDomain rest
    if classifyLink siteDomain l then (l :: p.1, p.2) else (p.1, l :: p.2)

/-- The `page` object of `make_page_object` (lines 96–148).  File reading
and path relativization (lines 97–98) are I/O collaborators: `relPath` is
the root-relative file path and `html` the file's text. -/
structure PageRecord where
  ptype : List Char
  path : List Char
  status : Nat
  title : List Char
  metaDescription : List Char
  metaKeywords : List Char
  metaRobots : List Char
  metaCanonical : List Char
  metaCharset : List Char
  openGraph : List (List Char × List Char)
  twitter : List (List Char × List Char)
  headings : Nat → Option (List (List Char))
  contentHtml : List Char
  internalLinks : List LinkRecord
  externalLinks : List LinkRecord
  images : List ImageRecord
  breadcrumbs : List (List Char)

/-- Anchored `<title>([\s\S]*?)</title>` for `extract_between` (line 100). -/
def titleMatcherAt (l : List Char) : Option (List Char) :=
  (matchLitCI (("<title>").data) l).bind (fun l1 =>
    (ciFindSub (("</title>").data) l1).map (fun j => l1.take j))

/-- `extract_between(r'<title>([\s\S]*?)</title>', html)` (lines 19–21,
100): the stripped first capture, or empty. -/
def titleText (html : List Char) : List Char :=
  ((reSearch titleMatcherAt html).map pyStrip).getD []

def make_page_object (relPath html siteDomain : List Char) : PageRecord :=
  let split := splitLinks siteDomain (extract_links html)
  { ptype := ("page").data
    path := '/' :: relPath.map (fun c => if c = '\\' then '/' else c)
    status := 200
    title := if (titleText html).isEmpty then [] else strip_tags (titleText html)
    metaDescription := (extract_metas html MetaKey.description).getD []
    metaKeywords := (extract_metas html MetaKey.keywords).getD []
    metaRobots := (extract_metas html MetaKey.robots).getD (("index,follow").data)
    metaCanonical := (extract_metas html MetaKey.canonical).getD []
    metaCharset := (extract_metas html MetaKey.charset).getD (("utf-8").data)
    openGraph := []
    twitter := []
    headings := extract_headings html
    contentHtml := html
    internalLinks := split.1
    externalLinks := split.2
    images := extract_images html
    breadcrumbs := [] }

/-- Two adjacent ASCII spaces never occur. -/
def noAdjSpace : List Char → Bool
  | a :: b :: t => (!(a == ' ') || !(b == ' ')) && noAdjSpace (b :: t)
  | _ => true

/-- Fully normalized text: no `<` (no tag can form), no `&` (no entity can
decode), and whitespace only as single interior ASCII spaces. -/
def normalizedB (l : List Char) : Bool :=
  l.all (fun c => !(c == '<') && !(c == '&') && (!(isPySpace c) || c == ' ')) &&
  noAdjSpace l && !(l.head? == some ' ') && !(l.getLast? == some ' ')

theorem toLower_master (c : Char) :
    c.toLower = c ∨ (65 ≤ c.toNat ∧ c.toNat ≤ 90 ∧ (c.toLower).toNat = c.toNat + 32) := by
  unfold Char.toLower
  by_cases h : 65 ≤ c.toNat ∧ c.toNat ≤ 90
  · right
    refine ⟨h.1, h.2, ?_⟩
    have hv : Nat.isValidChar (c.toNat + 32) := by
      left
      omega
    simp only [ge_iff_le, h, and_self, if_true]
    simp [Char.ofNat, hv]
    rfl
  · left
    simp only [ge_iff_le]
    rw [if_neg h]

/-- If `d` is not a lower-case ASCII letter, then `toLower c = d` forces `c = d`. -/
theorem toLower_fix (c d : Char) (hd : d.toNat < 97 ∨ 122 < d.toNat) (h : c.toLower = d) :
    c = d := by
  rcases toLower_master c with h1 | ⟨_, _, h4⟩
  · rw [← h1, h]
  · exfalso
    rw [h] at h4
    omega

theorem char_eq_of_toNat (c d : Char) (h : c.toNat = d.toNat) : c = d := by
  apply Char.ext
  have h3 : c.val.toBitVec = d.val.toBitVec := BitVec.eq_of_toNat_eq h
  exact congrArg UInt32.mk h3 |>.trans (by cases d.val; rfl) |>.trans rfl

/-- `toLower c = d` forces `c = d` or `c` the corresponding upper-case letter. -/
theorem toLower_letter (c d : Char) (h : c.toLower = d) : c = d ∨ c.toNat + 32 = d.toNat := by
  rcases toLower_master c with h1 | ⟨_, _, h4⟩
  · left
    rw [← h1, h]
  · right
    rw [h] at h4
    omega

theorem ciHasPre_cons (p : Char) (ps : List Char) (c : Char) (cs : List Char) :
    ciHasPre (p :: ps) (c :: cs) = ((p == c.toLower) && ciHasPre ps cs) := rfl

theorem ciHasPre_lt_false (t : List Char) (c : Char) (cs : List Char) (hc : c ≠ '<') :
    ciHasPre ('<' :: t) (c :: cs) = false := by
  rw [ciHasPre_cons]
  have hne : ('<' == c.toLower) = false := by
    simp only [beq_eq_false_iff_ne, ne_eq]
    intro h
    exact hc (toLower_fix c '<' (by decide) h.symm)
  rw [hne]
  rfl

theorem stripBlocksAux_id (openT closeT : List Char) (t : List Char)
    (ho : openT = '<' :: t) :
    ∀ fuel l, '<' ∉ l → stripBlocksAux openT closeT fuel l = l := by
  intro fuel
  induction fuel with
  | zero => intro l _; rfl
  | succ n ih =>
    intro l hl
    match l with
    | [] => rfl
    | c :: cs =>
      have hc : c ≠ '<' := fun h => hl (h ▸ List.mem_cons_self c cs)
      have hpre : ciHasPre openT (c :: cs) = false := ho ▸ ciHasPre_lt_false t c cs hc
      have htl : '<' ∉ cs := fun h => hl (List.mem_cons_of_mem c h)
      simp [stripBlocksAux, hpre, ih cs htl]

theorem stripAngleAux_id :
    ∀ fuel l, '<' ∉ l → stripAngleAux fuel l = l := by
  intro fuel
  induction fuel with
  | zero => intro l _; rfl
  | succ n ih =>
    intro l hl
    match l with
    | [] => rfl
    | c :: cs =>
      have hc : ¬(c = '<') := fun h => hl (h ▸ List.mem_cons_self c cs)
      have htl : '<' ∉ cs := fun h => hl (List.mem_cons_of_mem c h)
      simp [stripAngleAux, hc, ih cs htl]

theorem collapseWsAux_nil (fuel : Nat) : collapseWsAux fuel [] = [] := by
  cases fuel <;> rfl

theorem collapseWsAux_id :
    ∀ fuel l, (∀ c ∈ l, isPySpace c = true → c = ' ') → noAdjSpace l = true →
      collapseWsAux fuel l = l := by
  intro fuel
  induction fuel with
  | zero => intro l _ _; rfl
  | succ n ih =>
    intro l hws hadj
    match l with
    | [] => rfl
    | c :: cs =>
      by_cases hsp : isPySpace c = true
      · have hc : c = ' ' := hws c (List.mem_cons_self c cs) hsp
        match cs with
        | [] =>
          simp [collapseWsAux, hsp, hc, collapseWsAux_nil]
        | d :: t =>
          have hd : ¬(d = ' ') := by
            subst hc
            intro hdeq
            subst hdeq
            simp [noAdjSpace] at hadj
          have hdws : isPySpace d = false := by
            by_contra hcon
            simp only [Bool.not_eq_false] at hcon
            exact hd (hws d (List.mem_cons_of_mem c (List.mem_cons_self d t)) hcon)
          have hdrop : (d :: t).dropWhile isPySpace = d :: t := by
            simp [List.dropWhile_cons, hdws]
          have hadj2 : noAdjSpace (d :: t) = true := by
            simp only [noAdjSpace, Bool.and_eq_true] at hadj
            exact hadj.2
          have hws2 : ∀ x ∈ d :: t, isPySpace x = true → x = ' ' :=
            fun x hx => hws x (List.mem_cons_of_mem c hx)
          simp [collapseWsAux, hsp, hc, hdrop, ih (d :: t) hws2 hadj2]
      · have hadj2 : noAdjSpace cs = true := by
          match cs with
          | [] => rfl
          | d :: t =>
            simp only [noAdjSpace, Bool.and_eq_true] at hadj
            exact hadj.2
        have hws2 : ∀ x ∈ cs, isPySpace x = true → x = ' ' :=
          fun x hx => hws x (List.mem_cons_of_mem c hx)
        simp [collapseWsAux, hsp, ih cs hws2 hadj2]

theorem dropWhile_id_of_head (p : Char → Bool) (l : List Char)
    (h : ∀ c, l.head? = some c → p c = false) : l.dropWhile p = l := by
  cases l with
  | nil => rfl
  | cons c cs => simp [List.dropWhile_cons, h c rfl]

theorem pyStrip_id (l : List Char)
    (h1 : ∀ c, l.head? = some c → isPySpace c = false)
    (h2 : ∀ c, l.getLast? = some c → isPySpace c = false) : pyStrip l = l := by
  unfold pyStrip
  rw [dropWhile_id_of_head isPySpace l h1]
  rw [dropWhile_id_of_head isPySpace l.reverse (by
    intro c hc
    rw [List.head?_reverse] at hc
    exact h2 c hc)]
  exact List.reverse_reverse l

theorem unescapeAux_id :
    ∀ fuel l, '&' ∉ l → unescapeAux fuel l = l := by
  intro fuel
  induction fuel with
  | zero => intro l _; rfl
  | succ n ih =>
    intro l hl
    match l with
    | [] => rfl
    | c :: cs =>
      have hc : ¬(c = '&') := fun h => hl (h ▸ List.mem_cons_self c cs)
      simp [unescapeAux, hc, ih cs (fun h => hl (List.mem_cons_of_mem c h))]

theorem unescape_id (l : List Char) (h : '&' ∉ l) : unescape l = l :=
  unescapeAux_id l.length l h

/-- A fully normalized string is a fixed point of `strip_tags`. -/
theorem strip_tags_fixed (l : List Char) (h : normalizedB l = true) : strip_tags l = l := by
  unfold normalizedB at h
  simp only [Bool.and_eq_true, List.all_eq_true] at h
  obtain ⟨⟨⟨hall, hadj⟩, hhead⟩, hlast⟩ := h
  have hlt : '<' ∉ l := by
    intro hx
    have := hall '<' hx
    simp at this
  have hamp : '&' ∉ l := by
    intro hx
    have := hall '&' hx
    simp at this
  have hws : ∀ c ∈ l, isPySpace c = true → c = ' ' := by
    intro c hc hcs
    have := hall c hc
    simp only [Bool.and_eq_true, Bool.not_eq_true', Bool.or_eq_true, beq_iff_eq] at this
    rcases this.2 with h | h
    · rw [hcs] at h; exact absurd h (by decide)
    · exact h
  have hh : ∀ c, l.head? = some c → isPySpace c = false := by
    intro c hc
    rw [hc] at hhead
    simp only [Bool.not_eq_true', beq_eq_false_iff_ne, ne_eq, Option.some.injEq] at hhead
    by_contra hcon
    simp only [Bool.not_eq_false] at hcon
    exact hhead (hws c (List.mem_of_mem_head? hc) hcon)
  have hg : ∀ c, l.getLast? = some c → isPySpace c = false := by
    intro c hc
    rw [hc] at hlast
    simp only [Bool.not_eq_true', beq_eq_false_iff_ne, ne_eq, Option.some.injEq] at hlast
    by_contra hcon
    simp only [Bool.not_eq_false] at hcon
    exact hlast (hws c (List.mem_of_getLast?_eq_some hc) hcon)
  unfold strip_tags
  rw [stripScripts, stripBlocksAux_id scriptOpenT scriptCloseT _ rfl _ l hlt]
  rw [stripStyles, stripBlocksAux_id styleOpenT styleCloseT _ rfl _ l hlt]
  rw [stripAngle, stripAngleAux_id _ l hlt]
  rw [collapseWs, collapseWsAux_id _ l hws hadj]
  rw [pyStrip_id l hh hg]
  exact unescape_id l hamp

/-- C1 (amended): `strip_tags` is idempotent at every input whose output is
normalized text — no `<`, no `&`, and whitespace only as single interior
ASCII spaces.  (The unamended claim fails: entity decoding runs after tag
removal, so the output can contain fresh tags or entities.) -/
theorem c1_strip_tags_idempotent (h : List Char)
    (hn : normalizedB (strip_tags h) = true) :
    strip_tags (strip_tags h) = strip_tags h :=
  strip_tags_fixed (strip_tags h) hn

theorem c1_strip_tags_idempotent_witness :
    normalizedB (strip_tags (("<p>ab cd</p>").data)) = true ∧
    strip_tags (strip_tags (("<p>ab cd</p>").data)) = strip_tags (("<p>ab cd</p>").data) :=
  ⟨by decide, c1_strip_tags_idempotent (("<p>ab cd</p>").data) (by decide)⟩

/-- C1 counterexample: on `&lt;x&gt;` the first pass decodes the entities to
the tag `<x>`, which the second pass deletes, so `strip_tags` is not
idempotent on every HTML input. -/
theorem c1_counterexample :
    strip_tags (strip_tags (("&lt;x&gt;").data)) ≠ strip_tags (("&lt;x&gt;").data) := by
  decide

theorem reSearch_cons {α : Type} (m : List Char → Option α) (c : Char) (cs : List Char) :
    reSearch m (c :: cs) =
      match m (c :: cs) with
      | some v => some v
      | none => reSearch m cs := rfl

/-- `re.search` returns the match at the leftmost matching position. -/
theorem reSearch_eq_of_first {α : Type} (m : List Char → Option α) :
    ∀ (l : List Char) (i : Nat) (v : α), m (l.drop i) = some v →
      (∀ j, j < i → m (l.drop j) = none) → reSearch m l = some v := by
  intro l
  induction l with
  | nil =>
    intro i v hv hnone
    cases i with
    | zero => exact hv
    | succ n =>
      have h0 := hnone 0 (Nat.succ_pos n)
      simp only [List.drop_nil] at h0 hv
      rw [hv] at h0
      cases h0
  | cons c cs ih =>
    intro i v hv hnone
    cases i with
    | zero =>
      simp only [List.drop_zero] at hv
      rw [reSearch_cons, hv]
    | succ n =>
      have h0 := hnone 0 (Nat.succ_pos n)
      simp only [List.drop_zero] at h0
      rw [reSearch_cons, h0]
      exact ih n v (by simpa using hv) (fun j hj => by
        have := hnone (j + 1) (Nat.succ_lt_succ hj)
        simpa using this)

/-- `re.search` fails when no position matches. -/
theorem reSearch_eq_none {α : Type} (m : List Char → Option α) :
    ∀ l : List Char, (∀ i, m (l.drop i) = none) → reSearch m l = none := by
  intro l
  induction l with
  | nil => intro h; exact h 0
  | cons c cs ih =>
    intro h
    have h0 := h 0
    simp only [List.drop_zero] at h0
    rw [reSearch_cons, h0]
    exact ih (fun i => by simpa using h (i + 1))

/-- C8: the meta extractor returns at most one value per recognized key (the
mapping is an `Option`); when no tag matches a key that key is omitted, not
defaulted; and when some tag matches, the value is the post-processed
capture of the leftmost match in the document (first-match-wins). -/
theorem c8_extract_metas_first_match (html : List Char) (k : MetaKey) :
    ((∀ i, metaMatcherAt k (html.drop i) = none) → extract_metas html k = none) ∧
    (∀ i v, metaMatcherAt k (html.drop i) = some v →
      (∀ j, j < i → metaMatcherAt k (html.drop j) = none) →
      extract_metas html k = some (metaPost k v)) := by
  constructor
  · intro h
    unfold extract_metas
    rw [reSearch_eq_none (metaMatcherAt k) html h]
    rfl
  · intro i v hv hnone
    unfold extract_metas
    rw [reSearch_eq_of_first (metaMatcherAt k) html i v hv hnone]
    rfl

/-- Two description tags: the leftmost one (content `a1`) wins. -/
def exMetaHtml : List Char :=
  ("<meta name=\"description\" content=\"a1\"><meta name=\"description\" content=\"a2\">").data

theorem c8_extract_metas_first_match_witness :
    extract_metas exMetaHtml MetaKey.description =
      some (metaPost MetaKey.description (("a1").data)) :=
  (c8_extract_metas_first_match exMetaHtml MetaKey.description).2 0 (("a1").data)
    (by decide) (fun j hj => absurd hj (Nat.not_lt_zero j))

/-- An anchor with a whitespace-padded href and a `rel` attribute only
inside the body. -/
def cex2Html : List Char := ("<a href=\" /p \">x <b rel=\"nofollow\">y</b></a>").data

/-- C2 counterexample: at `cex2Html` the only emitted record has its href
*stripped* (`/p`, not the raw ` /p `), and its `rel` taken from a nested tag
of the body (`nofollow`), not the empty string of the anchor tag itself. -/
theorem c2_counterexample :
    extract_links cex2Html =
      [{ href := ("/p").data, anchor := ("x y").data,
         rel := ("nofollow").data, target := [] }] ∧
    ∀ r ∈ extract_links cex2Html, r.href ≠ (" /p ").data ∧ r.rel ≠ [] := by
  decide

theorem head?_dropWhile_not (p : Char → Bool) :
    ∀ (l : List Char) (c : Char), (l.dropWhile p).head? = some c → p c = false := by
  intro l
  induction l with
  | nil => intro c h; cases h
  | cons a t ih =>
    intro c h
    by_cases hp : p a = true
    · rw [List.dropWhile_cons, if_pos hp] at h
      exact ih c h
    · rw [List.dropWhile_cons, if_neg hp] at h
      simp only [List.head?_cons, Option.some.injEq] at h
      subst h
      simpa using hp

theorem getLast?_dropWhile (p : Char → Bool) :
    ∀ l : List Char, l.dropWhile p ≠ [] → (l.dropWhile p).getLast? = l.getLast? := by
  intro l
  induction l with
  | nil => intro h; simp at h
  | cons a t ih =>
    intro h
    by_cases hp : p a = true
    · rw [List.dropWhile_cons, if_pos hp] at h ⊢
      rw [ih h]
      have ht : t ≠ [] := by
        intro he
        rw [he] at h
        simp at h
      match t, ht with
      | b :: t2, _ => rw [List.getLast?_cons_cons]
    · rw [List.dropWhile_cons, if_neg hp]

theorem pyStrip_head_not (l : List Char) (c : Char) (h : (pyStrip l).head? = some c) :
    isPySpace c = false := by
  unfold pyStrip at h
  rw [List.head?_reverse] at h
  have hne : ((l.dropWhile isPySpace).reverse).dropWhile isPySpace ≠ [] := by
    intro he
    rw [he] at h
    cases h
  rw [getLast?_dropWhile isPySpace _ hne, List.getLast?_reverse] at h
  exact head?_dropWhile_not isPySpace l c h

theorem pyStrip_getLast_not (l : List Char) (c : Char) (h : (pyStrip l).getLast? = some c) :
    isPySpace c = false := by
  unfold pyStrip at h
  rw [List.getLast?_reverse] at h
  exact head?_dropWhile_not isPySpace _ c h

/-- `str.strip()` is idempotent. -/
theorem pyStrip_idem (l : List Char) : pyStrip (pyStrip l) = pyStrip l :=
  pyStrip_id (pyStrip l) (fun c hc => pyStrip_head_not l c hc)
    (fun c hc => pyStrip_getLast_not l c hc)

/-- Every record the link scanner emits is `mkLink` of some match data. -/
theorem extractLinksAux_shape :
    ∀ (fuel : Nat) (l : List Char) (r : LinkRecord), r ∈ extractLinksAux fuel l →
      ∃ g0 g1 g2, r = mkLink g0 g1 g2 := by
  intro fuel
  induction fuel with
  | zero => intro l r h; cases h
  | succ n ih =>
    intro l r h
    match l with
    | [] => cases h
    | c :: cs =>
      unfold extractLinksAux at h
      split at h
      · rename_i g1 g2 rest heq
        rcases List.mem_cons.1 h with h1 | h2
        · exact ⟨_, _, _, h1⟩
        · exact ih rest r h2
      · exact ih cs r h

/-- The `href` of every extracted link is already stripped. -/
theorem extract_links_href_stripped (html : List Char) (r : LinkRecord)
    (h : r ∈ extract_links html) : pyStrip r.href = r.href := by
  obtain ⟨g0, g1, g2, rfl⟩ := extractLinksAux_shape html.length html r h
  exact pyStrip_idem g1

/-- A heading body whose entity decodes to leading whitespace. -/
def cex9Html : List Char := ("<h1>&nbsp;x</h1>").data

/-- C9 counterexample: the extractor applies an extra `.strip()` after
`strip_tags`, so at `cex9Html` the returned text is `x`, not the
tag-stripped body `\xa0x`. -/
theorem c9_counterexample :
    extract_headings cex9Html 1 = some [('x') :: []] ∧
    strip_tags (("&nbsp;x").data) ≠ ('x') :: [] := by
  decide

/-- The code's classifier agrees with the claim's rule list on any link
whose href is already stripped (as every extracted link's href is). -/
theorem classifyLink_eq_spec (d : List Char) (r : LinkRecord)
    (hs : pyStrip r.href = r.href) :
    classifyLink d r = classifySpec d r.href := by
  unfold classifyLink classifySpec classifyRules
  rw [hs]
  simp only [firstRule]
  rfl

/-- C3: for every extracted link, classification follows the claim's rule
precedence (first matching rule decides), and the four stated examples with
site domain `stroyglobal.com` classify as claimed. -/
theorem c3_classifier_follows_rules :
    (∀ (siteDomain html : List Char) (r : LinkRecord), r ∈ extract_links html →
      classifyLink siteDomain r = classifySpec siteDomain r.href) ∧
    classifyLink (("stroyglobal.com").data)
      { href := ("//stroyglobal.com/page").data, anchor := [], rel := [], target := [] } = true ∧
    classifyLink (("stroyglobal.com").data)
      { href := ("https://other.com").data, anchor := [], rel := [], target := [] } = false ∧
    classifyLink (("stroyglobal.com").data)
      { href := ("#section").data, anchor := [], rel := [], target := [] } = true ∧
    classifyLink (("stroyglobal.com").data)
      { href := [], anchor := [], rel := [], target := [] } = false := by
  refine ⟨?_, by decide, by decide, by decide, by decide⟩
  intro d html r hr
  exact classifyLink_eq_spec d r (extract_links_href_stripped html r hr)

def exC3Html : List Char := ("<a href=\"/x\">t</a>").data

theorem c3_classifier_follows_rules_witness :
    classifyLink (("stroyglobal.com").data)
      { href := ("/x").data, anchor := ("t").data, rel := [], target := [] } =
    classifySpec (("stroyglobal.com").data) (("/x").data) :=
  (c3_classifier_follows_rules).1 (("stroyglobal.com").data) exC3Html
    { href := ("/x").data, anchor := ("t").data, rel := [], target := [] } (by decide)

/-- The classification loop is the filter pair over the extraction order. -/
theorem splitLinks_eq_filter (d : List Char) (ls : List LinkRecord) :
    splitLinks d ls =
      (ls.filter (fun l => classifyLink d l), ls.filter (fun l => !classifyLink d l)) := by
  induction ls with
  | nil => rfl
  | cons l rest ih =>
    simp only [splitLinks, ih, List.filter_cons]
    by_cases h : classifyLink d l = true
    · simp [h]
    · simp [h]

/-- C4: every extracted link lands in exactly one of the two link containers
(the two containers together are a permutation of the extracted links, and
per-record counts add up), order of appearance is preserved within each
container (each is a sublist of the extraction order), and the images
container is exactly the extracted image list. -/
theorem c4_partition (relPath html siteDomain : List Char) :
    List.Perm ((make_page_object relPath html siteDomain).internalLinks ++
        (make_page_object relPath html siteDomain).externalLinks)
      (extract_links html) ∧
    (∀ r : LinkRecord,
      (make_page_object relPath html siteDomain).internalLinks.count r +
        (make_page_object relPath html siteDomain).externalLinks.count r =
      (extract_links html).count r) ∧
    List.Sublist (make_page_object relPath html siteDomain).internalLinks
      (extract_links html) ∧
    List.Sublist (make_page_object relPath html siteDomain).externalLinks
      (extract_links html) ∧
    (make_page_object relPath html siteDomain).images = extract_images html := by
  have hi : (make_page_object relPath html siteDomain).internalLinks
      = (extract_links html).filter (fun l => classifyLink siteDomain l) := by
    simp [make_page_object, splitLinks_eq_filter]
  have he : (make_page_object relPath html siteDomain).externalLinks
      = (extract_links html).filter (fun l => !classifyLink siteDomain l) := by
    simp [make_page_object, splitLinks_eq_filter]
  refine ⟨?_, ?_, ?_, ?_, rfl⟩
  · rw [hi, he]
    exact List.filter_append_perm _ _
  · intro r
    rw [hi, he, ← List.count_append]
    exact List.Perm.count_eq (List.filter_append_perm _ _) r
  · rw [hi]
    exact List.filter_sublist _
  · rw [he]
    exact List.filter_sublist _

/-- C10: the assembled page record embeds the entire raw HTML input text
verbatim in its `contentHtml` field. -/
theorem c10_contentHtml_verbatim (relPath html siteDomain : List Char) :
    (make_page_object relPath html siteDomain).contentHtml = html := rfl

/-- One issue the Validator records (tools/validate_seo_manifest.py).  The
Python code appends distinct human-readable message strings; they are
modelled as tagged values carrying the same data, one constructor per
distinct message template. -/
inductive Issue where
  | parseError (ln : Nat)
  | siteDomainMissing (ln : Nat)
  | contentEmpty (ln : Nat) (typ : List Char)
  | badPathStart (ln : Nat) (path : List Char)
  | duplicatePath (ln : Nat) (path : List Char)
  | nonUtf8Charset (ln : Nat) (path : List Char)
  | emptyInternalHref (ln : Nat) (path : List Char)
  | emptyExternalHref (ln : Nat) (path : List Char)
  | emptyImageSrc (ln : Nat) (path : List Char)
  | missingAlt (ln : Nat) (src path : List Char)
  | unknownType (ln : Nat)
deriving DecidableEq

/-- A parsed manifest record as the validator reads it; absent string
fields are the empty string, which the code cannot distinguish from a
missing key (it only tests truthiness and prefixes via `.get(...)`). -/
inductive VObj where
  | site (domain : List Char)
  | robotsTxt (content : List Char)
  | sitemapXml (content : List Char)
  | page (path charset : List Char) (internalLinks externalLinks : List LinkRecord)
      (images : List ImageRecord)
  | unknown
deriving DecidableEq

/-- One physical input line as `iter_ndjson` (lines 11–20) classifies it:
blank (skipped but still numbered), a JSON parse failure (the caught
`JSONDecodeError`, yielded as an `__error__` marker), or a parsed object.
Lines holding well-formed non-object JSON are outside this model. -/
inductive VLine where
  | blank
  | parseFail
  | obj (o : VObj)
deriving DecidableEq

/-- The issues one `page` record contributes (`main` lines 45–76), in code
order: path shape, duplicate path, charset, link hrefs, image src/alt. -/
def checkPage (ln : Nat) (seen : List (List Char)) (path charset : List Char)
    (ilinks elinks : List LinkRecord) (imgs : List ImageRecord) : List Issue :=
  (if !startsW (("/").data) path then [Issue.badPathStart ln path] else []) ++
  (if path ∈ seen then [Issue.duplicatePath ln path] else []) ++
  (if !(toLowerL charset == ("utf-8").data || toLowerL charset == ("utf8").data) then
    [Issue.nonUtf8Charset ln path] else []) ++
  ilinks.flatMap (fun lk =>
    if (pyStrip lk.href).isEmpty then [Issue.emptyInternalHref ln path] else []) ++
  elinks.flatMap (fun lk =>
    if (pyStrip lk.href).isEmpty then [Issue.emptyExternalHref ln path] else []) ++
  imgs.flatMap (fun im =>
    (if (pyStrip im.src).isEmpty then [Issue.emptyImageSrc ln path] else []) ++
    (if (pyStrip im.alt).isEmpty then [Issue.missingAlt ln (pyStrip im.src) path] else []))

/-- The issues one line contributes (`main` lines 30–77). -/
def checkLine (ln : Nat) (seen : List (List Char)) : VLine → List Issue
  | .blank => []
  | .parseFail => [Issue.parseError ln]
  | .obj (.site domain) => if domain.isEmpty then [Issue.siteDomainMissing ln] else []
  | .obj (.robotsTxt content) =>
      if content.isEmpty then [Issue.contentEmpty ln (("robotsTxt").data)] else []
  | .obj (.sitemapXml content) =>
      if content.isEmpty then [Issue.contentEmpty ln (("sitemapXml").data)] else []
  | .obj (.page path charset il el im) => checkPage ln seen path charset il el im
  | .obj .unknown => [Issue.unknownType ln]

/-- `seen_paths.add(path)` (line 52), modelled as insert-if-new so the list
length is the set's cardinality. -/
def seenAfter (seen : List (List Char)) : VLine → List (List Char)
  | .obj (.page path _ _ _ _) => if path ∈ seen then seen else path :: seen
  | _ => seen

/-- The issue accumulation of the single pass of `main`, starting at line
number `ln` with already-seen paths `seen`. -/
def runIssues (ln : Nat) (seen : List (List Char)) : List VLine → List Issue
  | [] => []
  | x :: rest => checkLine ln seen x ++ runIssues (ln + 1) (seenAfter seen x) rest

def foldSeen (seen : List (List Char)) (s : List VLine) : List (List Char) :=
  s.foldl seenAfter seen

def fullIssues (s : List VLine) : List Issue := runIssues 1 [] s

def isPageLine : VLine → Bool
  | .obj (.page _ _ _ _ _) => true
  | _ => false

/-- The validator's printed output (lines 78–86): the summary counters plus
only the first 200 issues. -/
structure VOut where
  pages : Nat
  uniquePaths : Nat
  issuesCount : Nat
  issues : List Issue

def validatorOutput (s : List VLine) : VOut :=
  { pages := s.countP isPageLine
    uniquePaths := (foldSeen [] s).length
    issuesCount := (fullIssues s).length
    issues := (fullIssues s).take 200 }

/-- The page path carried by a line, when it is a page record. -/
def linePath : VLine → Option (List Char)
  | .obj (.page path _ _ _ _) => some path
  | _ => none

/-- The page path at stream position `i` (0-based). -/
def pathAt (s : List VLine) (i : Nat) : Option (List Char) :=
  (s.get? i).bind linePath

theorem mem_ite_single {α : Type} {c : Prop} [Decidable c] (x y : α) :
    (x ∈ if c then [y] else ([] : List α)) ↔ (c ∧ x = y) := by
  split
  · simp_all
  · simp_all

/-- A duplicate-path issue arises from one line only when that line is a
page whose path was already seen. -/
theorem dup_mem_checkLine (m ln : Nat) (p : List Char) (seen : List (List Char)) (x : VLine) :
    (Issue.duplicatePath m p ∈ checkLine ln seen x) ↔
      (m = ln ∧ linePath x = some p ∧ p ∈ seen) := by
  cases x with
  | blank => simp [checkLine, linePath]
  | parseFail => simp [checkLine, linePath]
  | obj o =>
    cases o with
    | site d => simp [checkLine, linePath, mem_ite_single]
    | robotsTxt ct => simp [checkLine, linePath, mem_ite_single]
    | sitemapXml ct => simp [checkLine, linePath, mem_ite_single]
    | unknown => simp [checkLine, linePath]
    | page path charset il el im =>
      simp only [checkLine, checkPage, linePath, List.mem_append, List.mem_flatMap,
        mem_ite_single, Option.some.injEq]
      constructor
      · rintro (((((⟨_, h⟩ | ⟨hc, h⟩) | ⟨_, h⟩) | ⟨a, _, _, h⟩) | ⟨a, _, _, h⟩) |
          ⟨a, _, (⟨_, h⟩ | ⟨_, h⟩)⟩)
        · exact absurd h (by simp)
        · injection h with h1 h2
          exact ⟨h1, h2.symm, h2 ▸ hc⟩
        · exact absurd h (by simp)
        · exact absurd h (by simp)
        · exact absurd h (by simp)
        · exact absurd h (by simp)
        · exact absurd h (by simp)
      · rintro ⟨rfl, heq, hs⟩
        subst heq
        exact Or.inl (Or.inl (Or.inl (Or.inl (Or.inr ⟨hs, rfl⟩))))

theorem pathAt_cons_zero (x : VLine) (rest : List VLine) :
    pathAt (x :: rest) 0 = linePath x := rfl

theorem pathAt_cons_succ (x : VLine) (rest : List VLine) (i : Nat) :
    pathAt (x :: rest) (i + 1) = pathAt rest i := rfl

theorem mem_seenAfter (q : List Char) (seen : List (List Char)) (x : VLine) :
    q ∈ seenAfter seen x ↔ (q ∈ seen ∨ linePath x = some q) := by
  cases x with
  | blank => simp [seenAfter, linePath]
  | parseFail => simp [seenAfter, linePath]
  | obj o =>
    cases o with
    | site d => simp [seenAfter, linePath]
    | robotsTxt ct => simp [seenAfter, linePath]
    | sitemapXml ct => simp [seenAfter, linePath]
    | unknown => simp [seenAfter, linePath]
    | page path charset il el im =>
      simp only [seenAfter, linePath, Option.some.injEq]
      split
      · rename_i hmem
        constructor
        · exact fun h => Or.inl h
        · rintro (h | rfl)
          · exact h
          · exact hmem
      · simp only [List.mem_cons]
        constructor
        · rintro (rfl | h)
          · exact Or.inr rfl
          · exact Or.inl h
        · rintro (h | rfl)
          · exact Or.inr h
          · exact Or.inl rfl

/-- Where duplicate-path issues arise in a run: exactly at lines whose page
path was seen before (in the carried-in set or earlier in the stream). -/
theorem dup_mem_runIssues :
    ∀ (s : List VLine) (ln : Nat) (seen : List (List Char)) (m : Nat) (p : List Char),
      (Issue.duplicatePath m p ∈ runIssues ln seen s) ↔
        (∃ i, m = ln + i ∧ pathAt s i = some p ∧
          (p ∈ seen ∨ ∃ j, j < i ∧ pathAt s j = some p)) := by
  intro s
  induction s with
  | nil =>
    intro ln seen m p
    simp [runIssues, pathAt]
  | cons x rest ih =>
    intro ln seen m p
    simp only [runIssues, List.mem_append, dup_mem_checkLine, ih]
    constructor
    · rintro (⟨rfl, hx, hs⟩ | ⟨i, rfl, hpath, hcond⟩)
      · exact ⟨0, by omega, hx, Or.inl hs⟩
      · refine ⟨i + 1, by omega, hpath, ?_⟩
        rcases hcond with hsa | ⟨j, hj, hpj⟩
        · rcases (mem_seenAfter p seen x).1 hsa with hs | hlx
          · exact Or.inl hs
          · exact Or.inr ⟨0, Nat.succ_pos i, hlx⟩
        · exact Or.inr ⟨j + 1, Nat.succ_lt_succ hj, hpj⟩
    · rintro ⟨i, rfl, hpath, hcond⟩
      cases i with
      | zero =>
        left
        refine ⟨by omega, hpath, ?_⟩
        rcases hcond with hs | ⟨j, hj, _⟩
        · exact hs
        · omega
      | succ i =>
        right
        refine ⟨i, by omega, hpath, ?_⟩
        rcases hcond with hs | ⟨j, hj, hpj⟩
        · exact Or.inl ((mem_seenAfter p seen x).2 (Or.inl hs))
        · cases j with
          | zero => exact Or.inl ((mem_seenAfter p seen x).2 (Or.inr hpj))
          | succ j => exact Or.inr ⟨j, by omega, hpj⟩

/-- C5: a duplicate-path issue is flagged exactly on repeat occurrences of a
page path: the issue for (1-based) line `m` with path `p` is present iff
the line at index `m - 1` is a page with path `p` and some strictly earlier
line is a page with the same path — never on a first occurrence.  The
concrete two-record stream sharing path `/a.htm` yields exactly one
duplicate issue, on line 2. -/
theorem c5_duplicate_paths :
    (∀ (s : List VLine) (m : Nat) (p : List Char),
      (Issue.duplicatePath m p ∈ fullIssues s) ↔
        (∃ i, m = 1 + i ∧ pathAt s i = some p ∧ ∃ j, j < i ∧ pathAt s j = some p)) ∧
    fullIssues [VLine.obj (VObj.page (("/a.htm").data) (("utf-8").data) [] [] []),
      VLine.obj (VObj.page (("/a.htm").data) (("utf-8").data) [] [] [])] =
      [Issue.duplicatePath 2 (("/a.htm").data)] := by
  constructor
  · intro s m p
    rw [fullIssues, dup_mem_runIssues s 1 [] m p]
    constructor
    · rintro ⟨i, rfl, hp, hcond⟩
      rcases hcond with hs | hj
      · exact absurd hs (List.not_mem_nil p)
      · exact ⟨i, rfl, hp, hj⟩
    · rintro ⟨i, rfl, hp, hj⟩
      exact ⟨i, rfl, hp, Or.inr hj⟩
  · decide

theorem runIssues_replicate_parseFail :
    ∀ (n ln : Nat) (seen : List (List Char)),
      (runIssues ln seen (List.replicate n VLine.parseFail)).length = n := by
  intro n
  induction n with
  | zero => intro ln seen; rfl
  | succ k ih =>
    intro ln seen
    simp [List.replicate_succ, runIssues, checkLine, seenAfter, ih]

/-- C6: the output's issues array is the first-200 truncation of the full
issue list (hence never longer than 200), while `issuesCount` is always the
untruncated total — also beyond the cap: a stream of 201 unparsable lines
reports `issuesCount = 201` with only 200 issues listed. -/
theorem c6_issue_cap (s : List VLine) :
    (validatorOutput s).issues = (fullIssues s).take 200 ∧
    (validatorOutput s).issues.length ≤ 200 ∧
    (validatorOutput s).issuesCount = (fullIssues s).length ∧
    (validatorOutput (List.replicate 201 VLine.parseFail)).issuesCount = 201 ∧
    (validatorOutput (List.replicate 201 VLine.parseFail)).issues.length = 200 := by
  refine ⟨rfl, ?_, rfl, ?_, ?_⟩
  · show ((fullIssues s).take 200).length ≤ 200
    rw [List.length_take]
    exact Nat.min_le_left _ _
  · show (fullIssues (List.replicate 201 VLine.parseFail)).length = 201
    exact runIssues_replicate_parseFail 201 1 []
  · show ((fullIssues (List.replicate 201 VLine.parseFail)).take 200).length = 200
    have hlen : (fullIssues (List.replicate 201 VLine.parseFail)).length = 201 :=
      runIssues_replicate_parseFail 201 1 []
    rw [List.length_take, hlen]
    rfl

theorem runIssues_append (xs ys : List VLine) :
    ∀ (ln : Nat) (seen : List (List Char)),
      runIssues ln seen (xs ++ ys) =
        runIssues ln seen xs ++ runIssues (ln + xs.length) (foldSeen seen xs) ys := by
  induction xs with
  | nil => intro ln seen; simp [runIssues, foldSeen]
  | cons x xt ih =>
    intro ln seen
    simp only [List.cons_append, runIssues, List.length_cons, List.append_eq]
    rw [ih (ln + 1) (seenAfter seen x), List.append_assoc]
    have harith : ln + 1 + xt.length = ln + (xt.length + 1) := by omega
    rw [harith]
    rfl

theorem parseError_eq_ln_of_mem_checkLine (m ln : Nat) (seen : List (List Char)) (x : VLine)
    (h : Issue.parseError m ∈ checkLine ln seen x) : m = ln := by
  cases x with
  | blank => cases h
  | parseFail =>
    have h2 := List.mem_singleton.1 h
    injection h2
  | obj o =>
    cases o with
    | site d => simp [checkLine, mem_ite_single] at h
    | robotsTxt ct => simp [checkLine, mem_ite_single] at h
    | sitemapXml ct => simp [checkLine, mem_ite_single] at h
    | unknown =>
      have h2 := List.mem_singleton.1 h
      injection h2
    | page path charset il el im =>
      simp [checkLine, checkPage, mem_ite_single, List.mem_append, List.mem_flatMap] at h

theorem parseError_mem_bound :
    ∀ (s : List VLine) (ln : Nat) (seen : List (List Char)) (m : Nat),
      Issue.parseError m ∈ runIssues ln seen s → ln ≤ m ∧ m < ln + s.length := by
  intro s
  induction s with
  | nil =>
    intro ln seen m h
    cases h
  | cons x rest ih =>
    intro ln seen m h
    rcases List.mem_append.1 h with h1 | h2
    · have := parseError_eq_ln_of_mem_checkLine m ln seen x h1
      subst this
      simp only [List.length_cons]
      omega
    · have := ih (ln + 1) (seenAfter seen x) m h2
      simp only [List.length_cons]
      omega

/-- C7: a line that fails to parse contributes exactly one line-numbered
parse-error issue and never aborts the stream: the issue list decomposes
around the bad line, with every line after it still processed from the
carried-over duplicate-path state; and the parse-error issue for that line
occurs exactly once in the whole output. -/
theorem c7_parse_error_resilience (xs ys : List VLine) :
    fullIssues (xs ++ VLine.parseFail :: ys) =
      fullIssues xs ++ Issue.parseError (xs.length + 1) ::
        runIssues (xs.length + 2) (foldSeen [] xs) ys ∧
    (fullIssues (xs ++ VLine.parseFail :: ys)).count (Issue.parseError (xs.length + 1)) = 1 := by
  have hdec : fullIssues (xs ++ VLine.parseFail :: ys) =
      fullIssues xs ++ Issue.parseError (xs.length + 1) ::
        runIssues (xs.length + 2) (foldSeen [] xs) ys := by
    unfold fullIssues
    rw [runIssues_append xs (VLine.parseFail :: ys) 1 []]
    have h1 : 1 + xs.length = xs.length + 1 := by omega
    rw [h1]
    have h2 : xs.length + 1 + 1 = xs.length + 2 := by omega
    simp only [runIssues, checkLine, seenAfter, h2, List.singleton_append]
  refine ⟨hdec, ?_⟩
  rw [hdec, List.count_append]
  have hc1 : (fullIssues xs).count (Issue.parseError (xs.length + 1)) = 0 := by
    rw [List.count_eq_zero]
    intro hmem
    have := parseError_mem_bound xs 1 [] (xs.length + 1) hmem
    omega
  have hc2 : (runIssues (xs.length + 2) (foldSeen [] xs) ys).count
      (Issue.parseError (xs.length + 1)) = 0 := by
    rw [List.count_eq_zero]
    intro hmem
    have := parseError_mem_bound ys (xs.length + 2) (foldSeen [] xs) (xs.length + 1) hmem
    omega
  rw [hc1, List.count_cons_self, hc2]

/-- C9 (amended): for each heading level 1–6 the mapping holds exactly the
tag-stripped-then-trimmed bodies that are non-empty, in document order;
every returned text is non-empty; and a level with zero non-empty results
(or outside 1–6) is absent from the mapping rather than an empty list. -/
theorem c9_headings (html : List Char) (lvl : Nat) :
    (∀ ts, extract_headings html lvl = some ts →
      ts = headingItems lvl html ∧ ts ≠ [] ∧ ∀ t ∈ ts, t ≠ []) ∧
    (1 ≤ lvl → lvl ≤ 6 → headingItems lvl html ≠ [] →
      extract_headings html lvl = some (headingItems lvl html)) := by
  constructor
  · intro ts hts
    unfold extract_headings at hts
    by_cases h1 : 1 ≤ lvl ∧ lvl ≤ 6
    · rw [if_pos h1] at hts
      by_cases h2 : (headingItems lvl html).isEmpty = true
      · rw [if_pos h2] at hts
        cases hts
      · rw [if_neg h2] at hts
        have heq := (Option.some.inj hts).symm
        subst heq
        refine ⟨rfl, ?_, ?_⟩
        · intro he
          rw [he] at h2
          exact h2 rfl
        · intro t ht
          unfold headingItems at ht
          have hp := List.of_mem_filter ht
          simpa using hp
    · rw [if_neg h1] at hts
      cases hts
  · intro ha hb hne
    unfold extract_headings
    rw [if_pos ⟨ha, hb⟩, if_neg (by simpa [List.isEmpty_iff] using hne)]

def exC9Html : List Char := ("<h2>a</h2>").data

theorem c9_headings_witness :
    (("a").data :: []) = headingItems 2 exC9Html ∧ (("a").data :: []) ≠ [] ∧
      ∀ t ∈ (("a").data :: []), t ≠ [] :=
  (c9_headings exC9Html 2).1 (("a").data :: []) (by decide)

theorem matchLitCI_cons (p : Char) (ps : List Char) (c : Char) (cs : List Char) :
    matchLitCI (p :: ps) (c :: cs) =
      if p == c.toLower then matchLitCI ps cs else none := rfl

theorem matchLitCI_exact :
    ∀ (lit rest pat : List Char), toLowerL lit = pat →
      matchLitCI pat (lit ++ rest) = some rest := by
  intro lit
  induction lit with
  | nil =>
    intro rest pat h
    subst h
    rfl
  | cons c ct ih =>
    intro rest pat h
    subst h
    simp only [toLowerL, List.map_cons, List.cons_append, matchLitCI_cons, beq_self_eq_true,
      if_true]
    exact ih rest _ rfl

theorem matchLitCI_head_ne (p : Char) (ps : List Char) (c : Char) (cs : List Char)
    (h : c.toLower ≠ p) : matchLitCI (p :: ps) (c :: cs) = none := by
  rw [matchLitCI_cons, if_neg]
  simp only [beq_iff_eq]
  exact fun h2 => h h2.symm

theorem takeWhile_append_stop (p : Char → Bool) :
    ∀ (xs : List Char) (c : Char) (ys : List Char), (∀ a ∈ xs, p a = true) → p c = false →
      (xs ++ c :: ys).takeWhile p = xs := by
  intro xs
  induction xs with
  | nil =>
    intro c ys _ hc
    simp [List.takeWhile_cons, hc]
  | cons a t ih =>
    intro c ys hall hc
    have ha := hall a (List.mem_cons_self a t)
    simp only [List.cons_append, List.takeWhile_cons, ha, if_true]
    rw [ih c ys (fun b hb => hall b (List.mem_cons_of_mem a hb)) hc]

theorem head_of_drop_le :
    ∀ (xs : List Char) (g : Char) (ys : List Char) (m : Nat) (c : Char) (r : List Char),
      m ≤ xs.length → (xs ++ g :: ys).drop m = c :: r → c ∈ xs ∨ c = g := by
  intro xs
  induction xs with
  | nil =>
    intro g ys m c r hm hd
    have : m = 0 := by simpa using hm
    subst this
    simp only [List.nil_append, List.drop_zero] at hd
    exact Or.inr (List.cons.inj hd).1.symm
  | cons a t ih =>
    intro g ys m c r hm hd
    cases m with
    | zero =>
      simp only [List.cons_append, List.drop_zero] at hd
      exact Or.inl ((List.cons.inj hd).1.symm ▸ List.mem_cons_self a t)
    | succ m2 =>
      simp only [List.cons_append, List.drop_succ_cons] at hd
      rcases ih g ys m2 c r (by simpa using hm) hd with h | h
      · exact Or.inl (List.mem_cons_of_mem a h)
      · exact Or.inr h

theorem tryFrom_eq_of_unique {α : Type} (cont : List Char → Option α) (l : List Char)
    (j0 : Nat) (v : α) :
    ∀ k, j0 ≤ k → cont (l.drop j0) = some v →
      (∀ j, j0 < j → j ≤ k → cont (l.drop j) = none) → tryFrom cont l k = some v := by
  intro k
  induction k with
  | zero =>
    intro hj0 hv _
    have hz : j0 = 0 := by omega
    subst hz
    exact hv
  | succ n ih =>
    intro hj0 hv hfail
    by_cases hEq : j0 = n + 1
    · subst hEq
      simp only [tryFrom, hv]
    · have hnone := hfail (n + 1) (by omega) (by omega)
      simp only [tryFrom, hnone]
      exact ih (by omega) hv (fun j h1 h2 => hfail j h1 (by omega))

theorem reSearch_cons_none {α : Type} (m : List Char → Option α) (c : Char) (cs : List Char)
    (h : m (c :: cs) = none) : reSearch m (c :: cs) = reSearch m cs := by
  rw [reSearch_cons, h]

theorem reSearch_cons_some {α : Type} (m : List Char → Option α) (c : Char) (cs : List Char)
    (v : α) (h : m (c :: cs) = some v) : reSearch m (c :: cs) = some v := by
  rw [reSearch_cons, h]

theorem reSearch_skip_all {α : Type} (m : List Char → Option α) :
    ∀ (xs ys : List Char), (∀ (c : Char) (t : List Char), c ∈ xs → m (c :: t) = none) →
      reSearch m (xs ++ ys) = reSearch m ys := by
  intro xs
  induction xs with
  | nil => intro ys _; rfl
  | cons a t ih =>
    intro ys h
    rw [List.cons_append, reSearch_cons_none m a (t ++ ys) (h a _ (List.mem_cons_self a t))]
    exact ih ys (fun c t2 hc => h c t2 (List.mem_cons_of_mem a hc))

theorem ciFindSub_cons (pat : List Char) (c : Char) (cs : List Char) :
    ciFindSub pat (c :: cs) =
      if ciHasPre pat (c :: cs) then some 0 else (ciFindSub pat cs).map (· + 1) := rfl

theorem ciFindSub_append_none (pat t : List Char) (hpat : pat = '<' :: t) :
    ∀ (xs ys : List Char), '<' ∉ xs →
      ciFindSub pat (xs ++ ys) = (ciFindSub pat ys).map (· + xs.length) := by
  intro xs
  induction xs with
  | nil =>
    intro ys _
    simp only [List.nil_append, List.length_nil]
    cases ciFindSub pat ys <;> simp
  | cons a x2 ih =>
    intro ys hx
    subst hpat
    have ha : a ≠ '<' := fun h => hx (h ▸ List.mem_cons_self a x2)
    have hpre : ciHasPre ('<' :: t) (a :: (x2 ++ ys)) = false := ciHasPre_lt_false t a _ ha
    rw [List.cons_append, ciFindSub_cons, hpre, if_neg (by simp)]
    rw [ih ys (fun h => hx (List.mem_cons_of_mem a h))]
    cases ciFindSub ('<' :: t) ys
    · simp
    · simp [List.length_cons]
      omega

theorem hrefLit_eq : ("href").data = ['h', 'r', 'e', 'f'] := rfl

theorem aEndLit_eq : ("</a>").data = ['<', '/', 'a', '>'] := rfl

theorem relLit_eq : ("rel").data = ['r', 'e', 'l'] := rfl

theorem targetLit_eq : ("target").data = ['t', 'a', 'r', 'g', 'e', 't'] := rfl

theorem linkTail_nil : linkTail [] = none := rfl

theorem linkTail_head_ne (c : Char) (r : List Char) (h : c.toLower ≠ 'h') :
    linkTail (c :: r) = none := by
  unfold linkTail
  rw [hrefLit_eq, matchLitCI_head_ne 'h' _ c r h]
  rfl

theorem relMatcherAt_head_ne (c : Char) (r : List Char) (h : c.toLower ≠ 'r') :
    relMatcherAt (c :: r) = none := by
  unfold relMatcherAt
  rw [relLit_eq, matchLitCI_head_ne 'r' _ c r h]
  rfl

theorem targetMatcherAt_head_ne (c : Char) (r : List Char) (h : c.toLower ≠ 't') :
    targetMatcherAt (c :: r) = none := by
  unfold targetMatcherAt
  rw [targetLit_eq, matchLitCI_head_ne 't' _ c r h]
  rfl

/-- Attribute-value hygiene for the symbolic anchor element: the href value
is a non-empty string free of quotes, `>`, and of the letters (either case)
that could collide with the `href`/`rel`/`target` literals. -/
def okHref (v : List Char) : Prop :=
  v ≠ [] ∧ ∀ c ∈ v, c ≠ '"' ∧ c ≠ '>' ∧ c.toLower ≠ 'h' ∧ c.toLower ≠ 'r' ∧ c.toLower ≠ 't'

def okRel (v : List Char) : Prop :=
  v ≠ [] ∧ ∀ c ∈ v, c ≠ '"' ∧ c ≠ '>' ∧ c.toLower ≠ 'h' ∧ c.toLower ≠ 't'

def okTarget (v : List Char) : Prop :=
  v ≠ [] ∧ ∀ c ∈ v, c ≠ '"' ∧ c ≠ '>' ∧ c.toLower ≠ 'h'

/-- The anchor element `<a href="H" rel="R" target="T">B</a>`. -/
def mkAnchor (hrefV relV targetV body : List Char) : List Char :=
  ['<', 'a', ' ', 'h', 'r', 'e', 'f', '=', '"'] ++ hrefV ++
  ['"', ' ', 'r', 'e', 'l', '=', '"'] ++ relV ++
  ['"', ' ', 't', 'a', 'r', 'g', 'e', 't', '=', '"'] ++ targetV ++
  ['"', '>'] ++ body ++ ['<', '/', 'a', '>']

theorem all_mem_append {P : Char → Prop} (xs ys : List Char)
    (hx : ∀ c ∈ xs, P c) (hy : ∀ c ∈ ys, P c) : ∀ c ∈ xs ++ ys, P c := by
  intro c hc
  rcases List.mem_append.1 hc with h | h
  · exact hx c h
  · exact hy c h

theorem linkTail_success (hrefV relV targetV body : List Char)
    (hH : okHref hrefV) (hR : okRel relV) (hT : okTarget targetV) (hB : '<' ∉ body) :
    linkTail ('h' :: 'r' :: 'e' :: 'f' :: '=' :: '"' ::
      (hrefV ++ '"' :: ' ' :: 'r' :: 'e' :: 'l' :: '=' :: '"' ::
        (relV ++ '"' :: ' ' :: 't' :: 'a' :: 'r' :: 'g' :: 'e' :: 't' :: '=' :: '"' ::
          (targetV ++ '"' :: '>' :: (body ++ ['<', '/', 'a', '>']))))) =
      some (hrefV, body, []) := by
  have hq : ∀ c ∈ hrefV, ((c != '"') = true) := fun c hc => by
    simpa using (hH.2 c hc).1
  set afterQ : List Char := ' ' :: 'r' :: 'e' :: 'l' :: '=' :: '"' ::
      (relV ++ '"' :: ' ' :: 't' :: 'a' :: 'r' :: 'g' :: 'e' :: 't' :: '=' :: '"' ::
        (targetV ++ '"' :: '>' :: (body ++ ['<', '/', 'a', '>']))) with hafterQdef
  set frontG : List Char := ' ' :: 'r' :: 'e' :: 'l' :: '=' :: '"' ::
      (relV ++ '"' :: ' ' :: 't' :: 'a' :: 'r' :: 'g' :: 'e' :: 't' :: '=' :: '"' ::
        (targetV ++ ['"'])) with hfrontGdef
  have e4 : quotedCapPlusR (hrefV ++ '"' :: afterQ) = some (hrefV, afterQ) := by
    simp only [quotedCapPlusR]
    rw [takeWhile_append_stop _ hrefV '"' afterQ hq rfl]
    have hne : hrefV.isEmpty = false := by
      simp [List.isEmpty_iff, hH.1]
    rw [hne, List.drop_left]
    rfl
  have hfrontG : ∀ c ∈ frontG, ((c != '>') = true) := by
    rw [hfrontGdef]
    exact all_mem_append ([' ', 'r', 'e', 'l', '=', '"']) _ (by decide)
      (all_mem_append relV _ (fun c hc => by simpa using (hR.2 c hc).2.1)
        (all_mem_append (['"', ' ', 't', 'a', 'r', 'g', 'e', 't', '=', '"']) _ (by decide)
          (all_mem_append targetV _ (fun c hc => by simpa using (hT.2 c hc).2.1)
            (by decide))))
  have hshape : afterQ = frontG ++ '>' :: (body ++ ['<', '/', 'a', '>']) := by
    rw [hafterQdef, hfrontGdef]
    simp [List.append_assoc]
  have e5 : skipToGt afterQ = some (body ++ ['<', '/', 'a', '>']) := by
    rw [hshape]
    unfold skipToGt
    rw [takeWhile_append_stop _ frontG '>' _ hfrontG rfl, List.drop_left]
    rfl
  have e6 : ciFindSub (("</a>").data) (body ++ ['<', '/', 'a', '>']) = some body.length := by
    rw [aEndLit_eq, ciFindSub_append_none ['<', '/', 'a', '>'] ['/', 'a', '>'] rfl body _ hB]
    rw [show ciFindSub ['<', '/', 'a', '>'] ['<', '/', 'a', '>'] = some 0 from by decide]
    simp
  unfold linkTail
  rw [hrefLit_eq]
  rw [show matchLitCI ['h', 'r', 'e', 'f'] ('h' :: 'r' :: 'e' :: 'f' :: '=' :: '"' ::
      (hrefV ++ '"' :: afterQ)) = some ('=' :: '"' :: (hrefV ++ '"' :: afterQ)) from rfl]
  rw [Option.some_bind]
  rw [show expectChar '=' (dropWs ('=' :: '"' :: (hrefV ++ '"' :: afterQ))) =
      some ('"' :: (hrefV ++ '"' :: afterQ)) from rfl]
  rw [Option.some_bind]
  rw [show expectChar '"' (dropWs ('"' :: (hrefV ++ '"' :: afterQ))) =
      some (hrefV ++ '"' :: afterQ) from rfl]
  rw [Option.some_bind, e4, Option.some_bind]
  rw [show (hrefV, afterQ).2 = afterQ from rfl, e5, Option.some_bind, e6]
  simp only [Option.map_some']
  rw [List.take_left]
  rw [List.drop_append]
  rfl

theorem starNoGt_link (hrefV relV targetV body : List Char)
    (hH : okHref hrefV) (hR : okRel relV) (hT : okTarget targetV) (hB : '<' ∉ body) :
    starNoGt linkTail (' ' :: 'h' :: 'r' :: 'e' :: 'f' :: '=' :: '"' ::
      (hrefV ++ '"' :: ' ' :: 'r' :: 'e' :: 'l' :: '=' :: '"' ::
        (relV ++ '"' :: ' ' :: 't' :: 'a' :: 'r' :: 'g' :: 'e' :: 't' :: '=' :: '"' ::
          (targetV ++ '"' :: '>' :: (body ++ ['<', '/', 'a', '>']))))) =
      some (hrefV, body, []) := by
  set tailB : List Char := body ++ ['<', '/', 'a', '>'] with htailBdef
  set front2 : List Char := 'r' :: 'e' :: 'f' :: '=' :: '"' ::
      (hrefV ++ '"' :: ' ' :: 'r' :: 'e' :: 'l' :: '=' :: '"' ::
        (relV ++ '"' :: ' ' :: 't' :: 'a' :: 'r' :: 'g' :: 'e' :: 't' :: '=' :: '"' ::
          (targetV ++ ['"']))) with hfront2def
  set l1 : List Char := ' ' :: 'h' :: 'r' :: 'e' :: 'f' :: '=' :: '"' ::
      (hrefV ++ '"' :: ' ' :: 'r' :: 'e' :: 'l' :: '=' :: '"' ::
        (relV ++ '"' :: ' ' :: 't' :: 'a' :: 'r' :: 'g' :: 'e' :: 't' :: '=' :: '"' ::
          (targetV ++ '"' :: '>' :: tailB))) with hl1def
  have hshape : l1 = (' ' :: 'h' :: front2) ++ '>' :: tailB := by
    rw [hl1def, hfront2def]
    simp [List.append_assoc]
  have hallfront : ∀ c ∈ ' ' :: 'h' :: front2, ((c != '>') = true) := by
    rw [hfront2def]
    exact all_mem_append ([' ', 'h', 'r', 'e', 'f', '=', '"']) _ (by decide)
      (all_mem_append hrefV _ (fun c hc => by simpa using (hH.2 c hc).2.1)
        (all_mem_append (['"', ' ', 'r', 'e', 'l', '=', '"']) _ (by decide)
          (all_mem_append relV _ (fun c hc => by simpa using (hR.2 c hc).2.1)
            (all_mem_append (['"', ' ', 't', 'a', 'r', 'g', 'e', 't', '=', '"']) _ (by decide)
              (all_mem_append targetV _ (fun c hc => by simpa using (hT.2 c hc).2.1)
                (by decide))))))
  have hrun : l1.takeWhile (fun c => c != '>') = ' ' :: 'h' :: front2 := by
    rw [hshape]
    exact takeWhile_append_stop _ _ '>' _ hallfront rfl
  unfold starNoGt
  rw [hrun]
  apply tryFrom_eq_of_unique linkTail l1 1 (hrefV, body, []) ((' ' :: 'h' :: front2).length)
  · simp only [List.length_cons]
    omega
  · rw [hl1def]
    exact linkTail_success hrefV relV targetV body hH hR hT hB
  · intro j hj1 hj2
    obtain ⟨j2, rfl⟩ : ∃ j2, j = j2 + 2 := ⟨j - 2, by omega⟩
    have hdrop : l1.drop (j2 + 2) = (front2 ++ '>' :: tailB).drop j2 := by
      rw [hshape]
      rfl
    rw [hdrop]
    have hfront2h : ∀ c ∈ front2, c.toLower ≠ 'h' := by
      rw [hfront2def]
      exact all_mem_append (['r', 'e', 'f', '=', '"']) _ (by decide)
        (all_mem_append hrefV _ (fun c hc => (hH.2 c hc).2.2.1)
          (all_mem_append (['"', ' ', 'r', 'e', 'l', '=', '"']) _ (by decide)
            (all_mem_append relV _ (fun c hc => (hR.2 c hc).2.2.1)
              (all_mem_append (['"', ' ', 't', 'a', 'r', 'g', 'e', 't', '=', '"']) _ (by decide)
                (all_mem_append targetV _ (fun c hc => (hT.2 c hc).2.2)
                  (by decide))))))
    have hlen : j2 ≤ front2.length := by
      simp only [List.length_cons] at hj2
      omega
    cases hcase : (front2 ++ '>' :: tailB).drop j2 with
    | nil => exact linkTail_nil
    | cons c r =>
      rcases head_of_drop_le front2 '>' tailB j2 c r hlen hcase with h | h
      · exact linkTail_head_ne c r (hfront2h c h)
      · subst h
        exact linkTail_head_ne '>' r (by decide)

theorem relMatcherAt_success (relV rest : List Char) (h1 : relV ≠ [])
    (hq : ∀ c ∈ relV, c ≠ '"') :
    relMatcherAt ('r' :: 'e' :: 'l' :: '=' :: '"' :: (relV ++ '"' :: rest)) = some relV := by
  unfold relMatcherAt
  rw [relLit_eq]
  rw [show matchLitCI ['r', 'e', 'l'] ('r' :: 'e' :: 'l' :: '=' :: '"' :: (relV ++ '"' :: rest)) =
      some ('=' :: '"' :: (relV ++ '"' :: rest)) from rfl]
  rw [Option.some_bind]
  rw [show expectChar '=' (dropWs ('=' :: '"' :: (relV ++ '"' :: rest))) =
      some ('"' :: (relV ++ '"' :: rest)) from rfl]
  rw [Option.some_bind]
  rw [show expectChar '"' (dropWs ('"' :: (relV ++ '"' :: rest))) =
      some (relV ++ '"' :: rest) from rfl]
  rw [Option.some_bind]
  unfold quotedCapPlus
  rw [takeWhile_append_stop _ relV '"' rest (fun c hc => by simpa using hq c hc) rfl]
  have hne : relV.isEmpty = false := by simpa [List.isEmpty_iff] using h1
  simp [hne, List.drop_left, expectChar]

theorem targetMatcherAt_success (targetV rest : List Char) (h1 : targetV ≠ [])
    (hq : ∀ c ∈ targetV, c ≠ '"') :
    targetMatcherAt ('t' :: 'a' :: 'r' :: 'g' :: 'e' :: 't' :: '=' :: '"' ::
      (targetV ++ '"' :: rest)) = some targetV := by
  unfold targetMatcherAt
  rw [targetLit_eq]
  rw [show matchLitCI ['t', 'a', 'r', 'g', 'e', 't']
      ('t' :: 'a' :: 'r' :: 'g' :: 'e' :: 't' :: '=' :: '"' :: (targetV ++ '"' :: rest)) =
      some ('=' :: '"' :: (targetV ++ '"' :: rest)) from rfl]
  rw [Option.some_bind]
  rw [show expectChar '=' (dropWs ('=' :: '"' :: (targetV ++ '"' :: rest))) =
      some ('"' :: (targetV ++ '"' :: rest)) from rfl]
  rw [Option.some_bind]
  rw [show expectChar '"' (dropWs ('"' :: (targetV ++ '"' :: rest))) =
      some (targetV ++ '"' :: rest) from rfl]
  rw [Option.some_bind]
  unfold quotedCapPlus
  rw [takeWhile_append_stop _ targetV '"' rest (fun c hc => by simpa using hq c hc) rfl]
  have hne : targetV.isEmpty = false := by simpa [List.isEmpty_iff] using h1
  simp [hne, List.drop_left, expectChar]

theorem reSearch_rel_mkAnchor (hrefV relV targetV body : List Char)
    (hH : okHref hrefV) (hR : okRel relV) :
    reSearch relMatcherAt (mkAnchor hrefV relV targetV body) = some relV := by
  set restR : List Char := relV ++ '"' :: ' ' :: 't' :: 'a' :: 'r' :: 'g' :: 'e' :: 't' ::
      '=' :: '"' :: (targetV ++ '"' :: '>' :: (body ++ ['<', '/', 'a', '>'])) with hrestRdef
  set restH : List Char := hrefV ++ '"' :: ' ' :: 'r' :: 'e' :: 'l' :: '=' :: '"' :: restR
    with hrestHdef
  have hshape : mkAnchor hrefV relV targetV body =
      '<' :: 'a' :: ' ' :: 'h' :: 'r' :: 'e' :: 'f' :: '=' :: '"' :: restH := by
    rw [hrestHdef, hrestRdef]
    unfold mkAnchor
    simp [List.append_assoc]
  rw [hshape]
  rw [reSearch_cons_none relMatcherAt '<' _ (relMatcherAt_head_ne '<' _ (by decide))]
  rw [reSearch_cons_none relMatcherAt 'a' _ (relMatcherAt_head_ne 'a' _ (by decide))]
  rw [reSearch_cons_none relMatcherAt ' ' _ (relMatcherAt_head_ne ' ' _ (by decide))]
  rw [reSearch_cons_none relMatcherAt 'h' _ (relMatcherAt_head_ne 'h' _ (by decide))]
  rw [reSearch_cons_none relMatcherAt 'r' _
    (show relMatcherAt ('r' :: 'e' :: 'f' :: '=' :: '"' :: restH) = none from rfl)]
  rw [reSearch_cons_none relMatcherAt 'e' _ (relMatcherAt_head_ne 'e' _ (by decide))]
  rw [reSearch_cons_none relMatcherAt 'f' _ (relMatcherAt_head_ne 'f' _ (by decide))]
  rw [reSearch_cons_none relMatcherAt '=' _ (relMatcherAt_head_ne '=' _ (by decide))]
  rw [reSearch_cons_none relMatcherAt '"' _ (relMatcherAt_head_ne '"' _ (by decide))]
  rw [hrestHdef]
  rw [reSearch_skip_all relMatcherAt hrefV _
    (fun c t hc => relMatcherAt_head_ne c t (hH.2 c hc).2.2.2.1)]
  rw [reSearch_cons_none relMatcherAt '"' _ (relMatcherAt_head_ne '"' _ (by decide))]
  rw [reSearch_cons_none relMatcherAt ' ' _ (relMatcherAt_head_ne ' ' _ (by decide))]
  rw [hrestRdef]
  exact reSearch_cons_some relMatcherAt 'r' _ relV
    (relMatcherAt_success relV _ hR.1 (fun c hc => (hR.2 c hc).1))

theorem reSearch_target_mkAnchor (hrefV relV targetV body : List Char)
    (hH : okHref hrefV) (hR : okRel relV) (hT : okTarget targetV) :
    reSearch targetMatcherAt (mkAnchor hrefV relV targetV body) = some targetV := by
  set restT : List Char := targetV ++ '"' :: '>' :: (body ++ ['<', '/', 'a', '>'])
    with hrestTdef
  set restRl : List Char := relV ++ '"' :: ' ' :: 't' :: 'a' :: 'r' :: 'g' :: 'e' :: 't' ::
      '=' :: '"' :: restT with hrestRldef
  set restH : List Char := hrefV ++ '"' :: ' ' :: 'r' :: 'e' :: 'l' :: '=' :: '"' :: restRl
    with hrestHdef
  have hshape : mkAnchor hrefV relV targetV body =
      '<' :: 'a' :: ' ' :: 'h' :: 'r' :: 'e' :: 'f' :: '=' :: '"' :: restH := by
    rw [hrestHdef, hrestRldef, hrestTdef]
    unfold mkAnchor
    simp [List.append_assoc]
  rw [hshape]
  rw [reSearch_cons_none targetMatcherAt '<' _ (targetMatcherAt_head_ne '<' _ (by decide))]
  rw [reSearch_cons_none targetMatcherAt 'a' _ (targetMatcherAt_head_ne 'a' _ (by decide))]
  rw [reSearch_cons_none targetMatcherAt ' ' _ (targetMatcherAt_head_ne ' ' _ (by decide))]
  rw [reSearch_cons_none targetMatcherAt 'h' _ (targetMatcherAt_head_ne 'h' _ (by decide))]
  rw [reSearch_cons_none targetMatcherAt 'r' _ (targetMatcherAt_head_ne 'r' _ (by decide))]
  rw [reSearch_cons_none targetMatcherAt 'e' _ (targetMatcherAt_head_ne 'e' _ (by decide))]
  rw [reSearch_cons_none targetMatcherAt 'f' _ (targetMatcherAt_head_ne 'f' _ (by decide))]
  rw [reSearch_cons_none targetMatcherAt '=' _ (targetMatcherAt_head_ne '=' _ (by decide))]
  rw [reSearch_cons_none targetMatcherAt '"' _ (targetMatcherAt_head_ne '"' _ (by decide))]
  rw [hrestHdef]
  rw [reSearch_skip_all targetMatcherAt hrefV _
    (fun c t hc => targetMatcherAt_head_ne c t (hH.2 c hc).2.2.2.2)]
  rw [reSearch_cons_none targetMatcherAt '"' _ (targetMatcherAt_head_ne '"' _ (by decide))]
  rw [reSearch_cons_none targetMatcherAt ' ' _ (targetMatcherAt_head_ne ' ' _ (by decide))]
  rw [reSearch_cons_none targetMatcherAt 'r' _ (targetMatcherAt_head_ne 'r' _ (by decide))]
  rw [reSearch_cons_none targetMatcherAt 'e' _ (targetMatcherAt_head_ne 'e' _ (by decide))]
  rw [reSearch_cons_none targetMatcherAt 'l' _ (targetMatcherAt_head_ne 'l' _ (by decide))]
  rw [reSearch_cons_none targetMatcherAt '=' _ (targetMatcherAt_head_ne '=' _ (by decide))]
  rw [reSearch_cons_none targetMatcherAt '"' _ (targetMatcherAt_head_ne '"' _ (by decide))]
  rw [hrestRldef]
  rw [reSearch_skip_all targetMatcherAt relV _
    (fun c t hc => targetMatcherAt_head_ne c t (hR.2 c hc).2.2.2)]
  rw [reSearch_cons_none targetMatcherAt '"' _ (targetMatcherAt_head_ne '"' _ (by decide))]
  rw [reSearch_cons_none targetMatcherAt ' ' _ (targetMatcherAt_head_ne ' ' _ (by decide))]
  rw [hrestTdef]
  exact reSearch_cons_some targetMatcherAt 't' _ targetV
    (targetMatcherAt_success targetV _ hT.1 (fun c hc => (hT.2 c hc).1))

theorem matchLinkAt_mkAnchor (hrefV relV targetV body : List Char)
    (hH : okHref hrefV) (hR : okRel relV) (hT : okTarget targetV) (hB : '<' ∉ body) :
    matchLinkAt (mkAnchor hrefV relV targetV body) = some (hrefV, body, []) := by
  have hshape : mkAnchor hrefV relV targetV body =
      '<' :: 'a' :: (' ' :: 'h' :: 'r' :: 'e' :: 'f' :: '=' :: '"' ::
        (hrefV ++ '"' :: ' ' :: 'r' :: 'e' :: 'l' :: '=' :: '"' ::
          (relV ++ '"' :: ' ' :: 't' :: 'a' :: 'r' :: 'g' :: 'e' :: 't' :: '=' :: '"' ::
            (targetV ++ '"' :: '>' :: (body ++ ['<', '/', 'a', '>']))))) := by
    unfold mkAnchor
    simp [List.append_assoc]
  rw [hshape]
  unfold matchLinkAt
  rw [show ("<a").data = ['<', 'a'] from rfl]
  rw [show matchLitCI ['<', 'a'] ('<' :: 'a' :: (' ' :: 'h' :: 'r' :: 'e' :: 'f' :: '=' :: '"' ::
      (hrefV ++ '"' :: ' ' :: 'r' :: 'e' :: 'l' :: '=' :: '"' ::
        (relV ++ '"' :: ' ' :: 't' :: 'a' :: 'r' :: 'g' :: 'e' :: 't' :: '=' :: '"' ::
          (targetV ++ '"' :: '>' :: (body ++ ['<', '/', 'a', '>'])))))) =
      some (' ' :: 'h' :: 'r' :: 'e' :: 'f' :: '=' :: '"' ::
        (hrefV ++ '"' :: ' ' :: 'r' :: 'e' :: 'l' :: '=' :: '"' ::
          (relV ++ '"' :: ' ' :: 't' :: 'a' :: 'r' :: 'g' :: 'e' :: 't' :: '=' :: '"' ::
            (targetV ++ '"' :: '>' :: (body ++ ['<', '/', 'a', '>']))))) from rfl]
  rw [Option.some_bind]
  exact starNoGt_link hrefV relV targetV body hH hR hT hB

theorem extractLinksAux_nil (fuel : Nat) : extractLinksAux fuel [] = [] := by
  cases fuel with
  | zero => rfl
  | succ n => rfl

theorem extract_links_mkAnchor (hrefV relV targetV body : List Char)
    (hH : okHref hrefV) (hR : okRel relV) (hT : okTarget targetV) (hB : '<' ∉ body) :
    extract_links (mkAnchor hrefV relV targetV body) =
      [mkLink (mkAnchor hrefV relV targetV body) hrefV body] := by
  have hm := matchLinkAt_mkAnchor hrefV relV targetV body hH hR hT hB
  have hshape : mkAnchor hrefV relV targetV body =
      '<' :: ('a' :: ' ' :: 'h' :: 'r' :: 'e' :: 'f' :: '=' :: '"' ::
        (hrefV ++ '"' :: ' ' :: 'r' :: 'e' :: 'l' :: '=' :: '"' ::
          (relV ++ '"' :: ' ' :: 't' :: 'a' :: 'r' :: 'g' :: 'e' :: 't' :: '=' :: '"' ::
            (targetV ++ '"' :: '>' :: (body ++ ['<', '/', 'a', '>']))))) := by
    unfold mkAnchor
    simp [List.append_assoc]
  unfold extract_links
  rw [hshape] at hm ⊢
  rw [List.length_cons]
  simp only [extractLinksAux, hm]
  rw [List.length_nil, Nat.sub_zero, List.take_length]

/-- C2 (amended): for every well-formed anchor element with quoted
attribute values (hygienic: values free of quotes, `>`, and of characters
colliding with the attribute-name literals; body free of `<`), the
extractor emits exactly one record whose `href` is the whitespace-stripped
attribute value, whose `anchor` is the tag-stripped body, and whose
`rel`/`target` are the attribute values; and when the `rel`/`target`
attributes are absent those fields are the empty string, as the concrete
element `<a href="/u">t</a>` shows. -/
theorem c2_link_fields (hrefV relV targetV body : List Char)
    (hH : okHref hrefV) (hR : okRel relV) (hT : okTarget targetV) (hB : '<' ∉ body) :
    extract_links (mkAnchor hrefV relV targetV body) =
      [{ href := pyStrip hrefV, anchor := strip_tags body, rel := relV, target := targetV }] ∧
    extract_links (("<a href=\"/u\">t</a>").data) =
      [{ href := ("/u").data, anchor := ("t").data, rel := [], target := [] }] := by
  constructor
  · rw [extract_links_mkAnchor hrefV relV targetV body hH hR hT hB]
    unfold mkLink
    rw [reSearch_rel_mkAnchor hrefV relV targetV body hH hR]
    rw [reSearch_target_mkAnchor hrefV relV targetV body hH hR hT]
    rfl
  · decide

theorem c2_link_fields_witness :
    extract_links (mkAnchor ([' ', '/', 'p', ' ']) (['5', '5']) (['6', '6']) (['9', '9'])) =
      [{ href := pyStrip ([' ', '/', 'p', ' ']), anchor := strip_tags (['9', '9']),
         rel := ['5', '5'], target := ['6', '6'] }] :=
  (c2_link_fields ([' ', '/', 'p', ' ']) (['5', '5']) (['6', '6']) (['9', '9'])
    (by unfold okHref; decide) (by unfold okRel; decide) (by unfold okTarget; decide)
    (by decide)).1
